import Mathlib

set_option maxHeartbeats 1000000
set_option maxRecDepth 8000

namespace EvmTetris

/-- Error kinds of the emulator (src/src/evm/mod.rs, enum EvmError). -/
inductive EvmError where
  | OutOfGas
  | StackUnderflow
  | StackOverflow
deriving DecidableEq

/-- Result of an operation that mutates state of type s: ok and err both carry
the (possibly partially) mutated state, mirroring Rust methods on &mut self
whose mutations persist when an error is returned early with the ? operator;
fatal models a panic (a failed unwrap or assert, an out-of-bounds index, or an
unimplemented match arm). -/
inductive Res (σ : Type) (α : Type) where
  | ok (s : σ) (a : α)
  | err (s : σ) (e : EvmError)
  | fatal
deriving DecidableEq

/-- Modulus of 256-bit EVM words (primitive_types::U256 wraps modulo 2^256). -/
def wordModulus : Nat := 2 ^ 256

namespace GasCost

/-- Constant cost for free step (src/src/evm/gas.rs). -/
def ZERO : Nat := 0

/-- Constant cost for quick step. -/
def QUICK : Nat := 2

/-- Constant cost for fastest step. -/
def FASTEST : Nat := 3

/-- Constant cost for fast step. -/
def FAST : Nat := 5

/-- Constant cost for mid step. -/
def MID : Nat := 8

/-- Constant cost for slow step. -/
def SLOW : Nat := 10

/-- Constant cost for SHA3. -/
def SHA3 : Nat := 30

/-- Constant cost for copying every word. -/
def COPY : Nat := 3

/-- Constant cost for copying every word in the SHA3 opcode. -/
def COPY_SHA3 : Nat := 6

/-- Constant cost for accessing a warm account or storage key. -/
def WARM_ACCESS : Nat := 100

/-- Constant cost for a cold SLOAD. -/
def COLD_SLOAD : Nat := 2100

/-- SSTORE reentrancy sentry. -/
def SSTORE_SENTRY : Nat := 2300

/-- Constant cost for a storage set. -/
def SSTORE_SET : Nat := 20000

/-- Constant cost for a storage reset. -/
def SSTORE_RESET : Nat := 2900

/-- Constant cost for a storage clear. -/
def SSTORE_CLEARS_SCHEDULE : Nat := 4800

/-- Denominator of the quadratic part of the memory expansion gas cost. -/
def MEMORY_EXPANSION_QUAD_DENOMINATOR : Nat := 512

/-- Coefficient of the linear part of the memory expansion gas cost. -/
def MEMORY_EXPANSION_LINEAR_COEFF : Nat := 3

/-- Per ceil exponent byte cost of the EXP instruction. -/
def EXP_BYTE_TIMES : Nat := 50

end GasCost

/-- Gas manager (src/src/evm/gas.rs, struct Gas). GasCost is a transparent u64
newtype in the source; costs are plain Nat here. Every Gas reachable from
Gas::new satisfies used ≤ limit, which theorems take as a hypothesis where the
u64 subtraction in left() matters. -/
structure Gas where
  limit : Nat
  used : Nat
deriving DecidableEq

namespace Gas

/-- Gas::new(limit): used starts at zero. -/
def new (limit : Nat) : Gas := ⟨limit, 0⟩

/-- Gas::left(): limit - used (u64 subtraction; used ≤ limit holds on all
reachable states). -/
def left (g : Gas) : Nat := g.limit - g.used

/-- Gas::enough(cost): Ok iff left() ≥ cost, Err(OutOfGas) otherwise. -/
def enough (g : Gas) (cost : Nat) : Except EvmError Unit :=
  if g.left ≥ cost then .ok () else .error .OutOfGas

/-- Gas::use_gas(cost) on &mut self: first component is the (possibly mutated)
gas state, second the error if any; on error the state is returned unchanged,
exactly as in the source where `used` is only touched after `enough` passes. -/
def use_gas (g : Gas) (cost : Nat) : Gas × Option EvmError :=
  match g.enough cost with
  | .error e => (g, some e)
  | .ok _ => ({ g with used := g.used + cost }, none)

/-- Repeated use_gas over a list of costs, stopping at the first failure; used
to state the N-successful-charges accounting property. -/
def chargeAll (g : Gas) : List Nat → Gas × Option EvmError
  | [] => (g, none)
  | c :: cs =>
    match use_gas g c with
    | (g1, some e) => (g1, some e)
    | (g1, none) => chargeAll g1 cs

end Gas

/-- Maximum stack depth (src/src/evm/stack.rs). -/
def MAX_STACK_SIZE : Nat := 1024

/-- Operand stack (src/src/evm/stack.rs, struct Stack). The source keeps the
words in a Vec with the top of the stack at the END of the Vec; here `inner`
lists the same words top-first (list index i = Vec index len - 1 - i), so
Vec::push/pop at the tail become cons/uncons at the head. -/
structure Stack where
  inner : List Nat
deriving DecidableEq

namespace Stack

/-- Stack::try_push: StackOverflow at MAX_STACK_SIZE elements, else append at
the Vec tail = cons at the list head. -/
def try_push (s : Stack) (value : Nat) : Except EvmError Stack :=
  if s.inner.length ≥ MAX_STACK_SIZE then .error .StackOverflow
  else .ok ⟨value :: s.inner⟩

/-- Stack::try_pop: remove and return the top (the Vec tail = the list head). -/
def try_pop (s : Stack) : Except EvmError (Nat × Stack) :=
  match s.inner with
  | [] => .error .StackUnderflow
  | v :: rest => .ok (v, ⟨rest⟩)

/-- Stack::try_at_least(n). -/
def try_at_least (s : Stack) (n : Nat) : Except EvmError Unit :=
  if s.inner.length ≥ n then .ok () else .error .StackUnderflow

/-- Stack::try_dup(n): requires n+1 elements, pushes a copy of
inner[len - n - 1] (Vec indexing) = the element at depth n from the top. -/
def try_dup (s : Stack) (n : Nat) : Except EvmError Stack :=
  match s.try_at_least (n + 1) with
  | .error e => .error e
  | .ok _ => s.try_push (s.inner.getD n 0)

/-- Stack::try_swap(n): requires n+2 elements, swaps Vec positions len-1 and
len-1-n, i.e. list positions 0 and n (for n = 0 this is a self-swap, a no-op,
exactly as in the source). -/
def try_swap (s : Stack) (n : Nat) : Except EvmError Stack :=
  match s.try_at_least (n + 2) with
  | .error e => .error e
  | .ok _ => .ok ⟨(s.inner.set 0 (s.inner.getD n 0)).set n (s.inner.getD 0 0)⟩

end Stack

/-- Maximum size in bytes of memory, 512 KiB (src/src/evm/memory.rs). -/
def MAX_MEMORY_SIZE : Nat := 512 * 1024

/-- Byte-addressable memory (src/src/evm/memory.rs, struct Memory): a byte
buffer plus the remembered word count. -/
structure Memory where
  inner : List Nat
  word_size : Nat
deriving DecidableEq

/-- Vec::resize(n, v): truncate to n elements or extend with copies of v. -/
def listResize (l : List Nat) (n : Nat) (v : Nat) : List Nat :=
  if n ≤ l.length then l.take n else l ++ List.replicate (n - l.length) v

/-- Big-endian byte list to number, as U256::from_big_endian. -/
def bytesToWordBE (bs : List Nat) : Nat :=
  bs.foldl (fun acc b => acc * 256 + b) 0

/-- Byte i of a word, i = 0 the least significant, as U256::byte(i). -/
def wordByte (w i : Nat) : Nat := w / 2 ^ (8 * i) % 256

/-- The 32 big-endian bytes of a word, as U256::to_big_endian. -/
def wordToBytesBE (w : Nat) : List Nat :=
  (List.range 32).map (fun i => wordByte w (31 - i))

namespace Memory

/-- Memory::new(). -/
def new : Memory := ⟨[], 0⟩

/-- Memory::gas_cost(word_size) (src/src/evm/memory.rs lines 37-41):
word_size² × MEMORY_EXPANSION_QUAD_DENOMINATOR
  + word_size × MEMORY_EXPANSION_LINEAR_COEFF,
reproduced exactly as in the source (the denominator multiplies). -/
def gas_cost (word_size : Nat) : Nat :=
  word_size * word_size * GasCost.MEMORY_EXPANSION_QUAD_DENOMINATOR
    + word_size * GasCost.MEMORY_EXPANSION_LINEAR_COEFF

/-- Memory::try_expand_to(offset, base_cost, gas) (src/src/evm/memory.rs lines
49-69). offset is the raw 256-bit word popped by the caller; usize::try_from
failing (offset ≥ 2^64) is mapped to OutOfGas as in the source. The failed
assert on the 512 KiB cap is a panic, hence fatal. -/
def try_expand_to (m : Memory) (offset : Nat) (base_cost : Nat) (g : Gas) :
    Res (Memory × Gas) Nat :=
  if offset ≥ 2 ^ 64 then .err (m, g) .OutOfGas
  else if offset < m.word_size * 32 then
    match Gas.use_gas g base_cost with
    | (g1, some e) => .err (m, g1) e
    | (g1, none) => .ok (m, g1) m.word_size
  else
    let prev_gas_cost := gas_cost m.word_size
    let new_word_size := (offset + 31) / 32
    let memory_expansion_cost := gas_cost new_word_size - prev_gas_cost
    match Gas.use_gas g (base_cost + memory_expansion_cost) with
    | (g1, some e) => .err (m, g1) e
    | (g1, none) =>
      if new_word_size * 32 ≤ MAX_MEMORY_SIZE then
        .ok (⟨listResize m.inner (new_word_size * 32) 0, new_word_size⟩, g1)
          new_word_size
      else .fatal

/-- Memory::raw_get(offset): read 32 big-endian bytes at offset; none models
the panic when the slice runs past the buffer. -/
def raw_get (m : Memory) (offset : Nat) : Option Nat :=
  if offset + 32 ≤ m.inner.length then
    some (bytesToWordBE ((m.inner.drop offset).take 32))
  else none

/-- U256::to_big_endian into inner[offset..offset+32]; none models the panic
when the slice runs past the buffer. -/
def writeWordBE (l : List Nat) (offset : Nat) (w : Nat) : Option (List Nat) :=
  if offset + 32 ≤ l.length then
    some (l.take offset ++ wordToBytesBE w ++ l.drop (offset + 32))
  else none

end Memory

/-- AccessList (src/src/evm/access_list.rs): the warm storage slots. The source
uses a HashSet; here a duplicate-free list with insert-if-absent. -/
structure AccessList where
  warm_slots : List Nat
deriving DecidableEq

namespace AccessList

/-- AccessList::is_warm_slot(slot). -/
def is_warm_slot (al : AccessList) (slot : Nat) : Bool :=
  al.warm_slots.contains slot

/-- AccessList::add_warm_slot(slot): HashSet::insert, idempotent. -/
def add_warm_slot (al : AccessList) (slot : Nat) : AccessList :=
  if al.warm_slots.contains slot then al else ⟨slot :: al.warm_slots⟩

end AccessList

/-- Persistent storage (src/src/evm/storage.rs, struct Storage). The source
uses a HashMap; here an association list with at most one entry per key. -/
structure Storage where
  inner : List (Nat × Nat)
deriving DecidableEq

namespace Storage

/-- Storage::raw_get(key): the stored value, or zero for an absent key. -/
def raw_get (s : Storage) (key : Nat) : Nat :=
  match s.inner.find? (fun p => p.1 == key) with
  | some p => p.2
  | none => 0

/-- Storage::raw_set(key, value): HashMap::insert, returning the new storage
and the prior value (zero if the key was absent). -/
def raw_set (s : Storage) (key value : Nat) : Storage × Nat :=
  (⟨(key, value) :: s.inner.filter (fun p => p.1 != key)⟩, s.raw_get key)

end Storage

/-- Two's-complement sign test for U256 (src/src/evm/utils.rs line 73,
SignExt::is_neg): 127 < self.byte(31). -/
def isNeg (w : Nat) : Bool := 127 < wordByte w 31

/-- Two's-complement negation for U256 (src/src/evm/utils.rs lines 77-83,
SignExt::neg): zero maps to zero, otherwise (2^256 - 1) - w + 1. -/
def negWord (w : Nat) : Nat := if w = 0 then 0 else wordModulus - 1 - w + 1

/-- SignExt::signed_cmp specialised to the strict-less test used through
SignWrapper's Ord instance by SLT/SGT (src/src/evm/utils.rs lines 10-19);
note the source reverses the raw comparison when both operands are negative. -/
def signedLt (a b : Nat) : Bool :=
  match isNeg a, isNeg b with
  | true, false => true
  | false, true => false
  | false, false => decide (a < b)
  | true, true => decide (b < a)

/-- The SDIV computation of Evm::step for a nonzero divisor (src/src/evm/mod.rs
lines 125-140): extract the two signs, divide the two's-complement absolute
values, and reapply the XOR of the two signs. -/
def sdivWord (a b : Nat) : Nat :=
  let a_sign := isNeg a
  let b_sign := isNeg b
  let result_sign := xor a_sign b_sign
  let a_abs := if a_sign then negWord a else a
  let b_abs := if b_sign then negWord b else b
  let result_abs := a_abs / b_abs
  if result_sign then negWord result_abs else result_abs

/-- The SMOD computation of Evm::step for a nonzero divisor (src/src/evm/mod.rs
lines 125-140): as sdivWord with the remainder of the absolute values, the
result sign again the XOR of the two operand signs. -/
def smodWord (a b : Nat) : Nat :=
  let a_sign := isNeg a
  let b_sign := isNeg b
  let result_sign := xor a_sign b_sign
  let a_abs := if a_sign then negWord a else a
  let b_abs := if b_sign then negWord b else b
  let result_abs := a_abs % b_abs
  if result_sign then negWord result_abs else result_abs

/-- The SIGNEXTEND computation of Evm::step (src/src/evm/mod.rs lines 162-181):
the popped index word is truncated by low_u64(); for an index below 32 the
single bit at position 8*(31 - index) is tested and, when set, an all-ones
word shifted left by that position is ORed in; otherwise the value passes
through unchanged. -/
def signextendWord (iw v : Nat) : Nat :=
  let least_significant_byte := iw % 2 ^ 64
  if least_significant_byte < 32 then
    let byte_position := 8 * (31 - least_significant_byte)
    let test_bit := 2 ^ byte_position
    let extend :=
      if v &&& test_bit = 0 then 0
      else (wordModulus - 1) * 2 ^ byte_position % wordModulus
    v ||| extend
  else v

/-- Modelled from the spec: the opcode catalog lives in src/src/evm/opcodes.rs,
which is not among the provided sources (src/src/evm/mod.rs declares
`mod opcodes`). Per spec §4.1 each opcode is a byte value with push/dup/swap
predicates; PUSH n carries its payload length n = value - PUSH0's value
(1 ≤ n ≤ 32), DUP n / SWAP n carry the zero-based index n = value - DUP1's
(resp. SWAP1's) value handed to Stack::try_dup / try_swap. OTHER stands for
any catalogued opcode outside the families Evm::step handles (its dispatch arm
is unreachable!, a panic). The static cost table OpcodeId::constant_gas_cost
is kept abstract as a parameter gasOf below. -/
inductive OpcodeId where
  | ADD
  | MUL
  | SUB
  | DIV
  | MOD
  | SDIV
  | SMOD
  | ADDMOD
  | MULMOD
  | EXP
  | SIGNEXTEND
  | LT
  | GT
  | SLT
  | SGT
  | EQ
  | AND
  | OR
  | XOR
  | NOT
  | BYTE
  | SHA3
  | MLOAD
  | MSTORE
  | MSTORE8
  | PC
  | MSIZE
  | PUSH0
  | PUSH (n : Nat)
  | DUP (n : Nat)
  | SWAP (n : Nat)
  | SLOAD
  | SSTORE
  | GAS
  | OTHER
deriving DecidableEq

namespace Memory

/-- Memory::mload (src/src/evm/memory.rs lines 101-111): pop the offset, then
charge via try_expand_to, then read; the final try_push is unwrapped in the
source, so its failure is fatal. gasOf stands for the static cost table of the
absent opcodes.rs. -/
def mload (gasOf : OpcodeId → Nat) (m : Memory) (g : Gas) (st : Stack) :
    Res (Memory × Gas × Stack) Nat :=
  match st.try_pop with
  | .error e => .err (m, g, st) e
  | .ok (offset, st1) =>
    match try_expand_to m offset (gasOf .MLOAD) g with
    | .fatal => .fatal
    | .err (m1, g1) e => .err (m1, g1, st1) e
    | .ok (m1, g1) _ =>
      match m1.raw_get offset with
      | none => .fatal
      | some value =>
        match st1.try_push value with
        | .error _ => .fatal
        | .ok st2 => .ok (m1, g1, st2) value

/-- Memory::mstore (src/src/evm/memory.rs lines 124-136): pop offset then
value, then charge via try_expand_to, then write 32 big-endian bytes. -/
def mstore (gasOf : OpcodeId → Nat) (m : Memory) (g : Gas) (st : Stack) :
    Res (Memory × Gas × Stack) Unit :=
  match st.try_pop with
  | .error e => .err (m, g, st) e
  | .ok (offset, st1) =>
    match st1.try_pop with
    | .error e => .err (m, g, st1) e
    | .ok (value, st2) =>
      match try_expand_to m offset (gasOf .MSTORE) g with
      | .fatal => .fatal
      | .err (m1, g1) e => .err (m1, g1, st2) e
      | .ok (m1, g1) _ =>
        match writeWordBE m1.inner offset value with
        | none => .fatal
        | some l1 => .ok ({ m1 with inner := l1 }, g1, st2) ()

/-- Memory::mstore8 (src/src/evm/memory.rs lines 149-161): pop offset then
value, charge via try_expand_to, then write the least significant byte. -/
def mstore8 (gasOf : OpcodeId → Nat) (m : Memory) (g : Gas) (st : Stack) :
    Res (Memory × Gas × Stack) Unit :=
  match st.try_pop with
  | .error e => .err (m, g, st) e
  | .ok (offset, st1) =>
    match st1.try_pop with
    | .error e => .err (m, g, st1) e
    | .ok (value, st2) =>
      match try_expand_to m offset (gasOf .MSTORE8) g with
      | .fatal => .fatal
      | .err (m1, g1) e => .err (m1, g1, st2) e
      | .ok (m1, g1) _ =>
        if offset < m1.inner.length then
          .ok ({ m1 with inner := m1.inner.set offset (wordByte value 0) },
            g1, st2) ()
        else .fatal

end Memory

namespace Storage

/-- Storage::sload (src/src/evm/storage.rs lines 41-64): pop the key, choose
the dynamic cost by the slot's warmth, charge static + dynamic, mark the slot
warm, push the stored value (zero if never set). The final try_push is
unwrapped, so its failure is fatal. -/
def sload (gasOf : OpcodeId → Nat) (sto : Storage) (al : AccessList) (g : Gas)
    (st : Stack) : Res (Storage × AccessList × Gas × Stack) Nat :=
  match st.try_pop with
  | .error e => .err (sto, al, g, st) e
  | .ok (key, st1) =>
    let dynamic_gas :=
      if al.is_warm_slot key then GasCost.WARM_ACCESS else GasCost.COLD_SLOAD
    let total_gas := gasOf .SLOAD + dynamic_gas
    match Gas.use_gas g total_gas with
    | (g1, some e) => .err (sto, al, g1, st1) e
    | (g1, none) =>
      let al1 := al.add_warm_slot key
      let value := sto.raw_get key
      match st1.try_push value with
      | .error _ => .fatal
      | .ok st2 => .ok (sto, al1, g1, st2) value

/-- Storage::sstore (src/src/evm/storage.rs lines 73-116): pop key then value;
base dynamic cost SSTORE_SET if the current stored value is zero else
WARM_ACCESS, plus COLD_SLOAD if the slot is cold; charge static + dynamic,
mark the slot warm, store the new value, return the prior value. -/
def sstore (gasOf : OpcodeId → Nat) (sto : Storage) (al : AccessList) (g : Gas)
    (st : Stack) : Res (Storage × AccessList × Gas × Stack) Nat :=
  match st.try_pop with
  | .error e => .err (sto, al, g, st) e
  | .ok (key, st1) =>
    match st1.try_pop with
    | .error e => .err (sto, al, g, st1) e
    | .ok (value, st2) =>
      let current_value := sto.raw_get key
      let base_dynamic_gas :=
        if current_value = 0 then GasCost.SSTORE_SET else GasCost.WARM_ACCESS
      let dynamic_gas :=
        if al.is_warm_slot key then base_dynamic_gas
        else base_dynamic_gas + GasCost.COLD_SLOAD
      let total_gas := gasOf .SSTORE + dynamic_gas
      match Gas.use_gas g total_gas with
      | (g1, some e) => .err (sto, al, g1, st2) e
      | (g1, none) =>
        let al1 := al.add_warm_slot key
        match sto.raw_set key value with
        | (sto1, prior) => .ok (sto1, al1, g1, st2) prior

end Storage

/-- One element of a bytecode (src/src/evm/bytecode.rs, BytecodeElement): a
byte value tagged as instruction byte or push-payload byte. -/
structure BytecodeElement where
  value : Nat
  is_code : Bool
deriving DecidableEq

/-- Bytecode (src/src/evm/bytecode.rs): an ordered sequence of elements. -/
structure Bytecode where
  inner : List BytecodeElement
deriving DecidableEq

/-- Bytecode::get_opcode(index) (src/src/evm/bytecode.rs lines 20-27). The
outer none models the Vec-index panic when index is out of bounds; the inner
none is the source's None for a push-payload byte. decode stands for
OpcodeId::from of the absent opcodes.rs (none marks a byte the catalog rejects,
which is a panic there). -/
def get_opcode (decode : Nat → Option OpcodeId) (bc : Bytecode) (index : Nat) :
    Option (Option OpcodeId) :=
  match bc.inner.get? index with
  | none => none
  | some el => some (if el.is_code then decode el.value else none)

/-- Interpreter state (src/src/evm/mod.rs, struct Evm). -/
structure Evm where
  program_counter : Nat
  access_list : AccessList
  bytecode : Bytecode
  gas : Gas
  memory : Memory
  stack : Stack
  storage : Storage
deriving DecidableEq

/-- Outcome of Evm::step: ok and err both carry the mutated interpreter
(mutations made before an early ? return persist); fatal models the panics
(unwrap of get_opcode, unimplemented!, unreachable!, slice panics). -/
inductive StepRes where
  | ok (e : Evm)
  | err (e : Evm) (er : EvmError)
  | fatal
deriving DecidableEq

namespace Evm

/-- Evm::new(gas_limit) (src/src/evm/mod.rs lines 39-49). -/
def new (gas_limit : Nat) : Evm :=
  ⟨0, ⟨[]⟩, ⟨[]⟩, Gas.new gas_limit, Memory.new, ⟨[]⟩, ⟨[]⟩⟩

/-- Evm::into_parts (src/src/evm/mod.rs lines 51-61). -/
def into_parts (e : Evm) :
    Nat × Bytecode × Stack × Memory × Gas × Storage × AccessList :=
  (e.program_counter, e.bytecode, e.stack, e.memory, e.gas, e.storage,
    e.access_list)

/-- Evm::from_parts (src/src/evm/mod.rs lines 63-81). -/
def from_parts (program_counter : Nat) (bytecode : Bytecode) (stack : Stack)
    (memory : Memory) (gas : Gas) (storage : Storage)
    (access_list : AccessList) : Evm :=
  { program_counter, access_list, bytecode, gas, memory, stack, storage }

/-- Evm::step (src/src/evm/mod.rs lines 88-314). gasOf stands for
OpcodeId::constant_gas_cost and decode for OpcodeId::from, both in the absent
opcodes.rs; everything else follows the dispatch arms of the source line by
line. Arms the source leaves unimplemented! or unreachable! are fatal. -/
def step (gasOf : OpcodeId → Nat) (decode : Nat → Option OpcodeId) (e : Evm) :
    StepRes :=
  match get_opcode decode e.bytecode e.program_counter with
  | none => .fatal
  | some none => .fatal
  | some (some opcode) =>
    match opcode with
    | .ADD | .MUL | .SUB =>
      match Gas.use_gas e.gas (gasOf opcode) with
      | (g1, some er) => .err { e with gas := g1 } er
      | (g1, none) =>
        match Stack.try_pop e.stack with
        | .error er => .err { e with gas := g1 } er
        | .ok (a, st1) =>
          match Stack.try_pop st1 with
          | .error er => .err { e with gas := g1, stack := st1 } er
          | .ok (b, st2) =>
            match Stack.try_push st2
                (match opcode with
                 | .ADD => (a + b) % wordModulus
                 | .MUL => a * b % wordModulus
                 | _ => (a + (wordModulus - b)) % wordModulus) with
            | .error er => .err { e with gas := g1, stack := st2 } er
            | .ok st3 => .ok { e with gas := g1, stack := st3, program_counter := e.program_counter + 1 }
    | .DIV | .MOD =>
      match Gas.use_gas e.gas (gasOf opcode) with
      | (g1, some er) => .err { e with gas := g1 } er
      | (g1, none) =>
        match Stack.try_pop e.stack with
        | .error er => .err { e with gas := g1 } er
        | .ok (a, st1) =>
          match Stack.try_pop st1 with
          | .error er => .err { e with gas := g1, stack := st1 } er
          | .ok (b, st2) =>
            match Stack.try_push st2
                (if b = 0 then 0
                 else match opcode with
                 | .DIV => a / b
                 | _ => a % b) with
            | .error er => .err { e with gas := g1, stack := st2 } er
            | .ok st3 => .ok { e with gas := g1, stack := st3, program_counter := e.program_counter + 1 }
    | .SDIV | .SMOD =>
      match Gas.use_gas e.gas (gasOf opcode) with
      | (g1, some er) => .err { e with gas := g1 } er
      | (g1, none) =>
        match Stack.try_pop e.stack with
        | .error er => .err { e with gas := g1 } er
        | .ok (a, st1) =>
          match Stack.try_pop st1 with
          | .error er => .err { e with gas := g1, stack := st1 } er
          | .ok (b, st2) =>
            match Stack.try_push st2
                (if b = 0 then 0
                 else match opcode with
                 | .SDIV => sdivWord a b
                 | _ => smodWord a b) with
            | .error er => .err { e with gas := g1, stack := st2 } er
            | .ok st3 => .ok { e with gas := g1, stack := st3, program_counter := e.program_counter + 1 }
    | .ADDMOD | .MULMOD =>
      match Gas.use_gas e.gas (gasOf opcode) with
      | (g1, some er) => .err { e with gas := g1 } er
      | (g1, none) =>
        match Stack.try_pop e.stack with
        | .error er => .err { e with gas := g1 } er
        | .ok (a, st1) =>
          match Stack.try_pop st1 with
          | .error er => .err { e with gas := g1, stack := st1 } er
          | .ok (b, st2) =>
            match Stack.try_pop st2 with
            | .error er => .err { e with gas := g1, stack := st2 } er
            | .ok (n3, st3) =>
              match Stack.try_push st3
                  (if n3 = 0 then 0
                   else (match opcode with
                         | .ADDMOD => (a + b) % wordModulus
                         | _ => a * b % wordModulus) % n3) with
              | .error er => .err { e with gas := g1, stack := st3 } er
              | .ok st4 => .ok { e with gas := g1, stack := st4, program_counter := e.program_counter + 1 }
    | .EXP => .fatal
    | .SIGNEXTEND =>
      match Gas.use_gas e.gas (gasOf opcode) with
      | (g1, some er) => .err { e with gas := g1 } er
      | (g1, none) =>
        match Stack.try_pop e.stack with
        | .error er => .err { e with gas := g1 } er
        | .ok (iw, st1) =>
          match Stack.try_pop st1 with
          | .error er => .err { e with gas := g1, stack := st1 } er
          | .ok (number, st2) =>
            match Stack.try_push st2 (signextendWord iw number) with
            | .error er => .err { e with gas := g1, stack := st2 } er
            | .ok st3 => .ok { e with gas := g1, stack := st3, program_counter := e.program_counter + 1 }
    | .LT | .GT | .SLT | .SGT | .EQ =>
      match Gas.use_gas e.gas (gasOf opcode) with
      | (g1, some er) => .err { e with gas := g1 } er
      | (g1, none) =>
        match Stack.try_pop e.stack with
        | .error er => .err { e with gas := g1 } er
        | .ok (a, st1) =>
          match Stack.try_pop st1 with
          | .error er => .err { e with gas := g1, stack := st1 } er
          | .ok (b, st2) =>
            match Stack.try_push st2
                (if (match opcode with
                     | .LT => decide (a < b)
                     | .GT => decide (b < a)
                     | .SLT => signedLt a b
                     | .SGT => signedLt b a
                     | _ => decide (a = b)) then 1 else 0) with
            | .error er => .err { e with gas := g1, stack := st2 } er
            | .ok st3 => .ok { e with gas := g1, stack := st3, program_counter := e.program_counter + 1 }
    | .AND | .OR | .XOR =>
      match Gas.use_gas e.gas (gasOf opcode) with
      | (g1, some er) => .err { e with gas := g1 } er
      | (g1, none) =>
        match Stack.try_pop e.stack with
        | .error er => .err { e with gas := g1 } er
        | .ok (a, st1) =>
          match Stack.try_pop st1 with
          | .error er => .err { e with gas := g1, stack := st1 } er
          | .ok (b, st2) =>
            match Stack.try_push st2
                (match opcode with
                 | .AND => a &&& b
                 | .OR => a ||| b
                 | _ => a ^^^ b) with
            | .error er => .err { e with gas := g1, stack := st2 } er
            | .ok st3 => .ok { e with gas := g1, stack := st3, program_counter := e.program_counter + 1 }
    | .NOT =>
      match Gas.use_gas e.gas (gasOf opcode) with
      | (g1, some er) => .err { e with gas := g1 } er
      | (g1, none) =>
        match Stack.try_pop e.stack with
        | .error er => .err { e with gas := g1 } er
        | .ok (a, st1) =>
          match Stack.try_push st1 (wordModulus - 1 - a) with
          | .error er => .err { e with gas := g1, stack := st1 } er
          | .ok st2 => .ok { e with gas := g1, stack := st2, program_counter := e.program_counter + 1 }
    | .BYTE =>
      match Gas.use_gas e.gas (gasOf opcode) with
      | (g1, some er) => .err { e with gas := g1 } er
      | (g1, none) =>
        match Stack.try_pop e.stack with
        | .error er => .err { e with gas := g1 } er
        | .ok (n, st1) =>
          match Stack.try_pop st1 with
          | .error er => .err { e with gas := g1, stack := st1 } er
          | .ok (a, st2) =>
            match Stack.try_push st2
                (if n < 32 then
                   if a &&& 2 ^ (8 * (31 - n)) = 0 then 0 else 1
                 else 0) with
            | .error er => .err { e with gas := g1, stack := st2 } er
            | .ok st3 => .ok { e with gas := g1, stack := st3, program_counter := e.program_counter + 1 }
    | .MLOAD =>
      match Memory.mload gasOf e.memory e.gas e.stack with
      | .fatal => .fatal
      | .err (m1, g1, st1) er =>
        .err { e with memory := m1, gas := g1, stack := st1 } er
      | .ok (m1, g1, st1) _ =>
        .ok { e with memory := m1, gas := g1, stack := st1, program_counter := e.program_counter + 1 }
    | .MSTORE =>
      match Memory.mstore gasOf e.memory e.gas e.stack with
      | .fatal => .fatal
      | .err (m1, g1, st1) er =>
        .err { e with memory := m1, gas := g1, stack := st1 } er
      | .ok (m1, g1, st1) _ =>
        .ok { e with memory := m1, gas := g1, stack := st1, program_counter := e.program_counter + 1 }
    | .MSTORE8 =>
      match Memory.mstore8 gasOf e.memory e.gas e.stack with
      | .fatal => .fatal
      | .err (m1, g1, st1) er =>
        .err { e with memory := m1, gas := g1, stack := st1 } er
      | .ok (m1, g1, st1) _ =>
        .ok { e with memory := m1, gas := g1, stack := st1, program_counter := e.program_counter + 1 }
    | .PC =>
      match Gas.use_gas e.gas (gasOf opcode) with
      | (g1, some er) => .err { e with gas := g1 } er
      | (g1, none) =>
        match Stack.try_push e.stack e.program_counter with
        | .error er => .err { e with gas := g1 } er
        | .ok st1 => .ok { e with gas := g1, stack := st1, program_counter := e.program_counter + 1 }
    | .MSIZE =>
      match Gas.use_gas e.gas (gasOf opcode) with
      | (g1, some er) => .err { e with gas := g1 } er
      | (g1, none) =>
        match Stack.try_push e.stack (e.memory.word_size * 32) with
        | .error er => .err { e with gas := g1 } er
        | .ok st1 => .ok { e with gas := g1, stack := st1, program_counter := e.program_counter + 1 }
    | .PUSH0 =>
      match Gas.use_gas e.gas (gasOf opcode) with
      | (g1, some er) => .err { e with gas := g1 } er
      | (g1, none) =>
        match Stack.try_push e.stack 0 with
        | .error er => .err { e with gas := g1 } er
        | .ok st1 => .ok { e with gas := g1, stack := st1, program_counter := e.program_counter + 1 }
    | .PUSH n =>
      match Gas.use_gas e.gas (gasOf opcode) with
      | (g1, some er) => .err { e with gas := g1 } er
      | (g1, none) =>
        if e.program_counter + 1 + n ≤ e.bytecode.inner.length then
          match Stack.try_push e.stack
              (((e.bytecode.inner.drop (e.program_counter + 1)).take n).foldl
                (fun acc el => acc * 256 + el.value) 0) with
          | .error er => .err { e with gas := g1 } er
          | .ok st1 => .ok { e with gas := g1, stack := st1, program_counter := e.program_counter + 1 + n }
        else .fatal
    | .DUP n =>
      match Gas.use_gas e.gas (gasOf opcode) with
      | (g1, some er) => .err { e with gas := g1 } er
      | (g1, none) =>
        match Stack.try_dup e.stack n with
        | .error er => .err { e with gas := g1 } er
        | .ok st1 => .ok { e with gas := g1, stack := st1, program_counter := e.program_counter + 1 }
    | .SWAP n =>
      match Gas.use_gas e.gas (gasOf opcode) with
      | (g1, some er) => .err { e with gas := g1 } er
      | (g1, none) =>
        match Stack.try_swap e.stack n with
        | .error er => .err { e with gas := g1 } er
        | .ok st1 => .ok { e with gas := g1, stack := st1, program_counter := e.program_counter + 1 }
    | .SHA3 => .fatal
    | .SLOAD =>
      match Storage.sload gasOf e.storage e.access_list e.gas e.stack with
      | .fatal => .fatal
      | .err (sto1, al1, g1, st1) er =>
        .err { e with storage := sto1, access_list := al1, gas := g1, stack := st1 } er
      | .ok (sto1, al1, g1, st1) _ =>
        .ok { e with storage := sto1, access_list := al1, gas := g1, stack := st1, program_counter := e.program_counter + 1 }
    | .SSTORE =>
      match Storage.sstore gasOf e.storage e.access_list e.gas e.stack with
      | .fatal => .fatal
      | .err (sto1, al1, g1, st1) er =>
        .err { e with storage := sto1, access_list := al1, gas := g1, stack := st1 } er
      | .ok (sto1, al1, g1, st1) _ =>
        .ok { e with storage := sto1, access_list := al1, gas := g1, stack := st1, program_counter := e.program_counter + 1 }
    | .GAS =>
      match Gas.use_gas e.gas (gasOf opcode) with
      | (g1, some er) => .err { e with gas := g1 } er
      | (g1, none) =>
        match Stack.try_push e.stack g1.left with
        | .error er => .err { e with gas := g1 } er
        | .ok st1 => .ok { e with gas := g1, stack := st1, program_counter := e.program_counter + 1 }
    | .OTHER => .fatal

end Evm

end EvmTetris

namespace EvmTetris

/-- Two's-complement reading of a 256-bit word as a signed integer: values
with the top bit set represent w - 2^256. Used only to state integer-level
semantics of the signed operations. -/
def toSigned (w : Nat) : Int :=
  if w < 2 ^ 255 then (w : Int) else (w : Int) - ((wordModulus : Nat) : Int)

/-- Signed remainder rule the code implements, stated over the integers: the
remainder of the absolute values with the XOR of the two operand signs
attached (note: not the sign of the dividend). -/
def xorSignRem (x y : Int) : Int :=
  if decide (x < 0) != decide (y < 0) then -((x.natAbs % y.natAbs : Nat) : Int)
  else ((x.natAbs % y.natAbs : Nat) : Int)

/-- Specification-side SIGNEXTEND following the words of the claim: for a byte
index i below 32, keep the low i+1 bytes of v and replicate the sign bit (bit
7) of byte i — counted from the least significant end — across all higher
bits (all-ones when that bit is 1, all-zeros when it is 0); identity for
i ≥ 32. Written for comparison against signextendWord, the code's behaviour. -/
def signextendClaim (i v : Nat) : Nat :=
  if i < 32 then
    let low := v % 2 ^ (8 * (i + 1))
    if v / 2 ^ (8 * i + 7) % 2 = 1 then low + (wordModulus - 2 ^ (8 * (i + 1)))
    else low
  else v

/-- The resized buffer has exactly the requested length. -/
lemma length_listResize (l : List Nat) (n v : Nat) :
    (listResize l n v).length = n := by
  unfold listResize
  split
  · simp only [List.length_take]
    omega
  · simp only [List.length_append, List.length_replicate]
    omega

/-- A successful use_gas adds exactly the cost and happens exactly when the
cost is affordable. -/
lemma use_gas_ok {g g1 : Gas} {c : Nat} (h : Gas.use_gas g c = (g1, none)) :
    g1 = ⟨g.limit, g.used + c⟩ ∧ c ≤ g.limit - g.used := by
  by_cases hc : c ≤ g.limit - g.used
  · refine ⟨?_, hc⟩
    simp only [Gas.use_gas, Gas.enough, Gas.left, ge_iff_le, if_pos hc] at h
    injection h with h1 h2
    exact h1.symm
  · simp only [Gas.use_gas, Gas.enough, Gas.left, ge_iff_le, if_neg hc] at h
    injection h with h1 h2
    exact Option.noConfusion h2

/-- A failing use_gas returns the gas state unchanged with OutOfGas, and
happens exactly when the cost is unaffordable. -/
lemma use_gas_err {g g1 : Gas} {c : Nat} {e : EvmError}
    (h : Gas.use_gas g c = (g1, some e)) :
    g1 = g ∧ e = .OutOfGas ∧ ¬ c ≤ g.limit - g.used := by
  by_cases hc : c ≤ g.limit - g.used
  · simp only [Gas.use_gas, Gas.enough, Gas.left, ge_iff_le, if_pos hc] at h
    injection h with h1 h2
    exact Option.noConfusion h2
  · simp only [Gas.use_gas, Gas.enough, Gas.left, ge_iff_le, if_neg hc] at h
    injection h with h1 h2
    injection h2 with h3
    exact ⟨h1.symm, h3.symm, hc⟩

/-- After a run of use_gas calls that all succeed, used has grown by exactly
the sum of the costs. -/
lemma chargeAll_sum (costs : List Nat) :
    ∀ (g gN : Gas), Gas.chargeAll g costs = (gN, none) →
      gN.used = g.used + costs.sum := by
  induction costs with
  | nil =>
    intro g gN h
    simp only [Gas.chargeAll] at h
    injection h with h1 h2
    rw [← h1]
    simp
  | cons c cs ih =>
    intro g gN h
    simp only [Gas.chargeAll] at h
    split at h
    · simp at h
    · rename_i g1 heq
      have h1 := ih g1 gN h
      have h2 := (use_gas_ok heq).1
      rw [h1, h2]
      simp only [List.sum_cons]
      omega

/-- C2 (confirmed): Gas::use_gas(cost) succeeds and increases used by exactly
cost if and only if cost ≤ limit − used; when it fails it returns OutOfGas and
leaves used unchanged; after any run of successful charges used equals the
exact sum of the charged costs. -/
theorem use_gas_exact_accounting (g : Gas) (c : Nat) (hinv : g.used ≤ g.limit) :
    (c ≤ g.limit - g.used → Gas.use_gas g c = (⟨g.limit, g.used + c⟩, none)) ∧
    (¬ c ≤ g.limit - g.used → Gas.use_gas g c = (g, some .OutOfGas)) ∧
    (∀ (costs : List Nat) (gN : Gas), Gas.chargeAll g costs = (gN, none) →
      gN.used = g.used + costs.sum) := by
  refine ⟨?_, ?_, fun costs gN h => chargeAll_sum costs g gN h⟩
  · intro hc
    simp [Gas.use_gas, Gas.enough, Gas.left, ge_iff_le, if_pos hc]
  · intro hc
    simp [Gas.use_gas, Gas.enough, Gas.left, ge_iff_le, if_neg hc]

/-- Witness for C2 at concrete inputs: a successful charge of 4 from limit 10
and a failing charge of 4 with only 2 left. -/
theorem use_gas_exact_accounting_witness :
    Gas.use_gas ⟨10, 0⟩ 4 = (⟨10, 4⟩, none) ∧
    Gas.use_gas ⟨10, 8⟩ 4 = (⟨10, 8⟩, some .OutOfGas) :=
  ⟨(use_gas_exact_accounting ⟨10, 0⟩ 4 (by decide)).1 (by decide),
   (use_gas_exact_accounting ⟨10, 8⟩ 4 (by decide)).2.1 (by decide)⟩

/-- C9 (confirmed): Evm::from_parts applied to the seven components returned
by Evm::into_parts reconstructs an interpreter equal to the original in every
component — snapshot then restore is the identity. -/
theorem from_parts_into_parts_id (e : Evm) :
    (match Evm.into_parts e with
     | (pc, bc, st, m, g, sto, al) => Evm.from_parts pc bc st m g sto al) = e :=
  rfl

/-- C1 counterexample: on empty memory (word count 0) and offset 0 — which is
outside the allocated byte range — try_expand_to succeeds but the remembered
word count stays 0, while ceil((offset+1)/32) = 1. -/
theorem try_expand_offset_zero_cex :
    Memory.try_expand_to ⟨[], 0⟩ 0 0 ⟨100, 0⟩ = .ok (⟨[], 0⟩, ⟨100, 0⟩) 0 ∧
    ((0 : Nat) + 1 + 31) / 32 = 1 ∧ (0 : Nat) ≠ 1 := by decide

/-- C1 (amended): for every successful expanding call to try_expand_to the new
remembered word count (and buffer word length) equals (offset+31)/32, i.e.
ceil(offset/32) — not ceil((offset+1)/32); in particular expanding an empty
memory to offset 0 allocates exactly 0 words. -/
theorem try_expand_word_count (m m1 : Memory) (g g1 : Gas)
    (offset base w : Nat)
    (hout : ¬ offset < m.word_size * 32)
    (hok : Memory.try_expand_to m offset base g = .ok (m1, g1) w) :
    w = (offset + 31) / 32 ∧ m1.word_size = (offset + 31) / 32 ∧
    m1.inner.length = (offset + 31) / 32 * 32 := by
  simp only [Memory.try_expand_to] at hok
  split at hok
  · exact absurd hok (by simp)
  · split at hok
    · exact absurd hok (by simp)
    · split at hok
      · injection hok with hpair hw
        injection hpair with hm hg1
        refine ⟨hw.symm, ?_, ?_⟩
        · rw [← hm]
        · rw [← hm]
          exact length_listResize _ _ _
      · exact absurd hok (by simp)

/-- Witness for C1 (amended) at the concrete counterexample input: expanding
empty memory to offset 0 succeeds with word count (0+31)/32 = 0. -/
theorem try_expand_word_count_witness :
    (0 : Nat) = (0 + 31) / 32 ∧
    (Memory.mk [] 0).word_size = (0 + 31) / 32 ∧
    (Memory.mk [] 0).inner.length = (0 + 31) / 32 * 32 :=
  try_expand_word_count ⟨[], 0⟩ ⟨[], 0⟩ ⟨100, 0⟩ ⟨100, 0⟩ 0 0 0 (by decide)
    (by decide)


/-- Marking a slot warm makes is_warm_slot true. -/
lemma is_warm_add (al : AccessList) (k : Nat) :
    (al.add_warm_slot k).is_warm_slot k = true := by
  unfold AccessList.add_warm_slot AccessList.is_warm_slot
  split
  · assumption
  · simp

/-- AccessList::add_warm_slot is idempotent. -/
lemma add_warm_idem (al : AccessList) (k : Nat) :
    (al.add_warm_slot k).add_warm_slot k = al.add_warm_slot k := by
  by_cases hm : k ∈ al.warm_slots
  · simp [AccessList.add_warm_slot, hm]
  · simp [AccessList.add_warm_slot, hm]

/-- Success equation for Storage::sload: with the key on top of the stack,
sufficient gas and room to push, sload charges static + (warm ? WARM_ACCESS :
COLD_SLOAD), marks the slot warm and pushes the stored value. -/
lemma sload_eq (gasOf : OpcodeId → Nat) (sto : Storage) (al : AccessList)
    (g : Gas) (st : Stack) (key : Nat) (rest : List Nat)
    (hst : st.inner = key :: rest)
    (hgas : gasOf .SLOAD + (if al.is_warm_slot key then GasCost.WARM_ACCESS
      else GasCost.COLD_SLOAD) ≤ g.limit - g.used)
    (hlen : rest.length < MAX_STACK_SIZE) :
    Storage.sload gasOf sto al g st =
      .ok (sto, al.add_warm_slot key,
        ⟨g.limit, g.used + (gasOf .SLOAD +
          (if al.is_warm_slot key then GasCost.WARM_ACCESS
           else GasCost.COLD_SLOAD))⟩,
        ⟨sto.raw_get key :: rest⟩) (sto.raw_get key) := by
  have hpush : Stack.try_push ⟨rest⟩ (sto.raw_get key) =
      .ok ⟨sto.raw_get key :: rest⟩ := by
    unfold Stack.try_push
    rw [if_neg (by simpa using Nat.not_le_of_lt hlen)]
  have hcharge : Gas.use_gas g (gasOf .SLOAD +
      (if al.is_warm_slot key then GasCost.WARM_ACCESS
       else GasCost.COLD_SLOAD)) =
      (⟨g.limit, g.used + (gasOf .SLOAD +
        (if al.is_warm_slot key then GasCost.WARM_ACCESS
         else GasCost.COLD_SLOAD))⟩, none) := by
    simp [Gas.use_gas, Gas.enough, Gas.left, ge_iff_le, if_pos hgas]
  simp only [Storage.sload, Stack.try_pop, hst, hcharge, hpush]

/-- C6 (confirmed): an SLOAD of slot key charges static gas plus COLD_SLOAD
(2100) when the key is not in the AccessList and WARM_ACCESS (100) when it is,
marks the key warm and pushes the stored value (raw_get, the zero word for a
never-set key); consequently an immediately following SLOAD of the same key
charges the warm dynamic cost. -/
theorem sload_warm_cold_gas (gasOf : OpcodeId → Nat) (sto : Storage)
    (al : AccessList) (g : Gas) (st : Stack) (key : Nat) (rest : List Nat)
    (hst : st.inner = key :: rest)
    (hgas : gasOf .SLOAD + (if al.is_warm_slot key then GasCost.WARM_ACCESS
      else GasCost.COLD_SLOAD) ≤ g.limit - g.used)
    (hlen : rest.length < MAX_STACK_SIZE) :
    Storage.sload gasOf sto al g st =
      .ok (sto, al.add_warm_slot key,
        ⟨g.limit, g.used + (gasOf .SLOAD +
          (if al.is_warm_slot key then GasCost.WARM_ACCESS
           else GasCost.COLD_SLOAD))⟩,
        ⟨sto.raw_get key :: rest⟩) (sto.raw_get key) ∧
    (al.add_warm_slot key).is_warm_slot key = true ∧
    (sto.inner.find? (fun p => p.1 == key) = none → sto.raw_get key = 0) ∧
    (∀ (g2 : Gas) (rest2 : List Nat),
      gasOf .SLOAD + GasCost.WARM_ACCESS ≤ g2.limit - g2.used →
      rest2.length < MAX_STACK_SIZE →
      Storage.sload gasOf sto (al.add_warm_slot key) g2 ⟨key :: rest2⟩ =
        .ok (sto, al.add_warm_slot key,
          ⟨g2.limit, g2.used + (gasOf .SLOAD + GasCost.WARM_ACCESS)⟩,
          ⟨sto.raw_get key :: rest2⟩) (sto.raw_get key)) := by
  refine ⟨sload_eq gasOf sto al g st key rest hst hgas hlen, is_warm_add al key,
    ?_, ?_⟩
  · intro hfind
    simp [Storage.raw_get, hfind]
  · intro g2 rest2 hgas2 hlen2
    have hw := is_warm_add al key
    have h := sload_eq gasOf sto (al.add_warm_slot key) g2 ⟨key :: rest2⟩ key
      rest2 rfl (by rw [if_pos hw]; exact hgas2) hlen2
    rw [if_pos hw] at h
    rw [h, add_warm_idem]

/-- Witness for C6 at a concrete input: cold SLOAD of slot 5 on empty state
charges 2100 and an immediately following SLOAD of slot 5 charges 100. -/
theorem sload_warm_cold_gas_witness :
    Storage.sload (fun _ => 0) ⟨[]⟩ ⟨[]⟩ ⟨3000, 0⟩ ⟨[5]⟩ =
      .ok (⟨[]⟩, AccessList.add_warm_slot ⟨[]⟩ 5, ⟨3000, 0 + (0 +
        (if AccessList.is_warm_slot ⟨[]⟩ 5 then GasCost.WARM_ACCESS
         else GasCost.COLD_SLOAD))⟩,
        ⟨Storage.raw_get ⟨[]⟩ 5 :: []⟩) (Storage.raw_get ⟨[]⟩ 5) ∧
    (AccessList.add_warm_slot ⟨[]⟩ 5).is_warm_slot 5 = true ∧
    ((Storage.mk []).inner.find? (fun p => p.1 == 5) = none →
      Storage.raw_get ⟨[]⟩ 5 = 0) ∧
    (∀ (g2 : Gas) (rest2 : List Nat),
      0 + GasCost.WARM_ACCESS ≤ g2.limit - g2.used →
      rest2.length < MAX_STACK_SIZE →
      Storage.sload (fun _ => 0) ⟨[]⟩ (AccessList.add_warm_slot ⟨[]⟩ 5) g2
          ⟨5 :: rest2⟩ =
        .ok (⟨[]⟩, AccessList.add_warm_slot ⟨[]⟩ 5,
          ⟨g2.limit, g2.used + (0 + GasCost.WARM_ACCESS)⟩,
          ⟨Storage.raw_get ⟨[]⟩ 5 :: rest2⟩) (Storage.raw_get ⟨[]⟩ 5)) :=
  sload_warm_cold_gas (fun _ => 0) ⟨[]⟩ ⟨[]⟩ ⟨3000, 0⟩ ⟨[5]⟩ 5 [] rfl
    (by decide) (by decide)

/-- Writing a slot then reading it back yields the written value. -/
lemma raw_get_raw_set (sto : Storage) (key value : Nat) :
    (Storage.raw_set sto key value).1.raw_get key = value := by
  simp [Storage.raw_get, Storage.raw_set, List.find?]

/-- C7 (confirmed): an SSTORE of value into slot key charges static gas plus a
base of SSTORE_SET (20000) when the current stored value is zero and
WARM_ACCESS (100) otherwise, plus COLD_SLOAD (2100) when the key is cold;
afterwards the key is warm, the value is stored and the prior value is
returned — so an SSTORE into an already-nonzero, already-warm slot charges
only the warm tier as dynamic cost. -/
theorem sstore_gas_tiers (gasOf : OpcodeId → Nat) (sto : Storage)
    (al : AccessList) (g : Gas) (st : Stack) (key value : Nat)
    (rest : List Nat) (hst : st.inner = key :: value :: rest)
    (hgas : gasOf .SSTORE +
      (if al.is_warm_slot key then
        (if sto.raw_get key = 0 then GasCost.SSTORE_SET
         else GasCost.WARM_ACCESS)
       else (if sto.raw_get key = 0 then GasCost.SSTORE_SET
         else GasCost.WARM_ACCESS) + GasCost.COLD_SLOAD) ≤
      g.limit - g.used) :
    Storage.sstore gasOf sto al g st =
      .ok ((Storage.raw_set sto key value).1, al.add_warm_slot key,
        ⟨g.limit, g.used + (gasOf .SSTORE +
          (if al.is_warm_slot key then
            (if sto.raw_get key = 0 then GasCost.SSTORE_SET
             else GasCost.WARM_ACCESS)
           else (if sto.raw_get key = 0 then GasCost.SSTORE_SET
             else GasCost.WARM_ACCESS) + GasCost.COLD_SLOAD))⟩,
        ⟨rest⟩) (sto.raw_get key) ∧
    (al.add_warm_slot key).is_warm_slot key = true ∧
    (Storage.raw_set sto key value).1.raw_get key = value ∧
    (sto.raw_get key ≠ 0 → al.is_warm_slot key = true →
      (if al.is_warm_slot key then
        (if sto.raw_get key = 0 then GasCost.SSTORE_SET
         else GasCost.WARM_ACCESS)
       else (if sto.raw_get key = 0 then GasCost.SSTORE_SET
         else GasCost.WARM_ACCESS) + GasCost.COLD_SLOAD) =
      GasCost.WARM_ACCESS) := by
  have hcharge : Gas.use_gas g (gasOf .SSTORE +
      (if al.is_warm_slot key then
        (if sto.raw_get key = 0 then GasCost.SSTORE_SET
         else GasCost.WARM_ACCESS)
       else (if sto.raw_get key = 0 then GasCost.SSTORE_SET
         else GasCost.WARM_ACCESS) + GasCost.COLD_SLOAD)) =
      (⟨g.limit, g.used + (gasOf .SSTORE +
        (if al.is_warm_slot key then
          (if sto.raw_get key = 0 then GasCost.SSTORE_SET
           else GasCost.WARM_ACCESS)
         else (if sto.raw_get key = 0 then GasCost.SSTORE_SET
           else GasCost.WARM_ACCESS) + GasCost.COLD_SLOAD))⟩, none) := by
    simp [Gas.use_gas, Gas.enough, Gas.left, ge_iff_le, if_pos hgas]
  refine ⟨?_, is_warm_add al key, raw_get_raw_set sto key value, ?_⟩
  · simp only [Storage.sstore, Stack.try_pop, hst, hcharge]
    simp [Storage.raw_set]
  · intro hnz hwarm
    rw [if_pos hwarm, if_neg hnz]

/-- Witness for C7 at a concrete input: storing 9 into the already-nonzero,
already-warm slot 5 charges only the WARM_ACCESS dynamic tier. -/
theorem sstore_gas_tiers_witness :
    Storage.sstore (fun _ => 0) ⟨[(5, 1)]⟩ ⟨[5]⟩ ⟨3000, 0⟩ ⟨[5, 9]⟩ =
      .ok ((Storage.raw_set ⟨[(5, 1)]⟩ 5 9).1,
        AccessList.add_warm_slot ⟨[5]⟩ 5,
        ⟨3000, 0 + ((fun (_ : OpcodeId) => 0) OpcodeId.SSTORE +
          (if AccessList.is_warm_slot ⟨[5]⟩ 5 then
            (if Storage.raw_get ⟨[(5, 1)]⟩ 5 = 0 then GasCost.SSTORE_SET
             else GasCost.WARM_ACCESS)
           else (if Storage.raw_get ⟨[(5, 1)]⟩ 5 = 0 then GasCost.SSTORE_SET
             else GasCost.WARM_ACCESS) + GasCost.COLD_SLOAD))⟩,
        ⟨[]⟩) (Storage.raw_get ⟨[(5, 1)]⟩ 5) ∧
    (AccessList.add_warm_slot ⟨[5]⟩ 5).is_warm_slot 5 = true ∧
    (Storage.raw_set ⟨[(5, 1)]⟩ 5 9).1.raw_get 5 = 9 ∧
    (Storage.raw_get ⟨[(5, 1)]⟩ 5 ≠ 0 → AccessList.is_warm_slot ⟨[5]⟩ 5 = true →
      (if AccessList.is_warm_slot ⟨[5]⟩ 5 then
        (if Storage.raw_get ⟨[(5, 1)]⟩ 5 = 0 then GasCost.SSTORE_SET
         else GasCost.WARM_ACCESS)
       else (if Storage.raw_get ⟨[(5, 1)]⟩ 5 = 0 then GasCost.SSTORE_SET
         else GasCost.WARM_ACCESS) + GasCost.COLD_SLOAD) =
      GasCost.WARM_ACCESS) :=
  sstore_gas_tiers (fun _ => 0) ⟨[(5, 1)]⟩ ⟨[5]⟩ ⟨3000, 0⟩ ⟨[5, 9]⟩ 5 9 [] rfl
    (by decide)


/-- C8 (confirmed): with enough gas and a zero divisor as the second popped
operand, the DIV, MOD, SDIV and SMOD steps push the zero word and complete
successfully — division by zero never produces an error. -/
theorem div_by_zero_pushes_zero (gasOf : OpcodeId → Nat)
    (decode : Nat → Option OpcodeId) (e : Evm) (op : OpcodeId) (a : Nat)
    (rest : List Nat)
    (hop : get_opcode decode e.bytecode e.program_counter = some (some op))
    (hfam : op = .DIV ∨ op = .MOD ∨ op = .SDIV ∨ op = .SMOD)
    (hst : e.stack.inner = a :: 0 :: rest)
    (hgas : gasOf op ≤ e.gas.limit - e.gas.used)
    (hlen : e.stack.inner.length ≤ MAX_STACK_SIZE) :
    Evm.step gasOf decode e =
      .ok { e with gas := ⟨e.gas.limit, e.gas.used + gasOf op⟩, stack := ⟨0 :: rest⟩, program_counter := e.program_counter + 1 } := by
  have hlen2 : rest.length < MAX_STACK_SIZE := by
    rw [hst] at hlen
    simp only [List.length_cons] at hlen
    omega
  have hcharge : Gas.use_gas e.gas (gasOf op) =
      (⟨e.gas.limit, e.gas.used + gasOf op⟩, none) := by
    simp [Gas.use_gas, Gas.enough, Gas.left, ge_iff_le, if_pos hgas]
  have hpush : Stack.try_push ⟨rest⟩ 0 = .ok ⟨0 :: rest⟩ := by
    unfold Stack.try_push
    rw [if_neg (by simpa using Nat.not_le_of_lt hlen2)]
  rcases hfam with h | h | h | h <;> subst h <;>
    simp [Evm.step, hop, Stack.try_pop, hst, hcharge, hpush]

/-- Witness for C8 at a concrete input: DIV with stack top 7 over divisor 0
pushes 0 and succeeds. -/
theorem div_by_zero_pushes_zero_witness :
    Evm.step (fun _ => 5) (fun _ => some .DIV)
        ⟨0, ⟨[]⟩, ⟨[⟨4, true⟩]⟩, ⟨10, 0⟩, ⟨[], 0⟩, ⟨[7, 0]⟩, ⟨[]⟩⟩ =
      .ok { (⟨0, ⟨[]⟩, ⟨[⟨4, true⟩]⟩, ⟨10, 0⟩, ⟨[], 0⟩, ⟨[7, 0]⟩, ⟨[]⟩⟩ : Evm)
        with gas := ⟨10, 0 + 5⟩, stack := ⟨0 :: []⟩, program_counter := 0 + 1 } :=
  div_by_zero_pushes_zero (fun _ => 5) (fun _ => some .DIV) _ .DIV 7 [] rfl
    (Or.inl rfl) rfl (by decide) (by decide)

/-- The sign test of a word below 2^256 is exactly the top-bit test. -/
lemma isNeg_eq (w : Nat) (hw : w < wordModulus) :
    isNeg w = decide (2 ^ 255 ≤ w) := by
  unfold wordModulus at hw
  unfold isNeg wordByte
  rw [decide_eq_decide]
  omega

/-- On nonzero words below 2^256, negWord is subtraction from 2^256. -/
lemma negWord_eq (w : Nat) (hw : w < wordModulus) (h0 : w ≠ 0) :
    negWord w = wordModulus - w := by
  unfold negWord wordModulus at *
  rw [if_neg h0]
  omega

/-- toSigned of a low word is the word itself. -/
lemma toSigned_low (w : Nat) (h : ¬ 2 ^ 255 ≤ w) : toSigned w = (w : Int) := by
  unfold toSigned
  rw [if_pos (by omega)]

/-- toSigned of a high word is the word minus 2^256. -/
lemma toSigned_high (w : Nat) (hw : w < wordModulus) (h : 2 ^ 255 ≤ w) :
    toSigned w = -(((wordModulus - w : Nat) : Int)) := by
  unfold toSigned wordModulus at *
  rw [if_neg (by omega)]
  omega

/-- toSigned is negative exactly on high words. -/
lemma toSigned_neg_iff (w : Nat) (hw : w < wordModulus) :
    toSigned w < 0 ↔ 2 ^ 255 ≤ w := by
  unfold toSigned wordModulus at *
  split <;> omega

/-- natAbs of toSigned: w itself for low words, 2^256 - w for high ones. -/
lemma natAbs_toSigned (w : Nat) (hw : w < wordModulus) :
    (toSigned w).natAbs = if 2 ^ 255 ≤ w then wordModulus - w else w := by
  unfold toSigned wordModulus at *
  by_cases h : 2 ^ 255 ≤ w
  · rw [if_neg (by omega), if_pos h]
    omega
  · rw [if_pos (by omega), if_neg h]
    omega


/-- C4 counterexample: SDIV(6, -2) = -3 and SMOD(7, -3) = -1 on the code, so
both results are negative words while the dividend is positive — the result
sign does not follow the dividend; it is the XOR of the operand signs. -/
theorem sdiv_sign_follows_dividend_cex :
    sdivWord 6 (wordModulus - 2) = wordModulus - 3 ∧
    smodWord 7 (wordModulus - 3) = wordModulus - 1 ∧
    isNeg (wordModulus - 3) = true ∧ isNeg (wordModulus - 1) = true ∧
    isNeg 6 = false ∧ isNeg 7 = false ∧
    wordModulus - 3 ≠ 0 ∧ wordModulus - 1 ≠ 0 := by decide

/-- C4 (amended): for nonzero divisors SDIV and SMOD compute on the
two's-complement absolute values and reapply the XOR of the two operand signs
(not the dividend's sign): SDIV agrees with truncated integer division modulo
2^256 and SMOD with the XOR-signed remainder; in particular SDIV(-6, 2) = -3
and SMOD(-7, 3) = -1. -/
theorem sdiv_smod_signed_semantics (a b : Nat) (ha : a < wordModulus)
    (hb : b < wordModulus) (hbz : b ≠ 0) :
    sdivWord a b =
      (((toSigned a).tdiv (toSigned b)) % ((wordModulus : Nat) : Int)).toNat ∧
    smodWord a b =
      ((xorSignRem (toSigned a) (toSigned b)) %
        ((wordModulus : Nat) : Int)).toNat ∧
    sdivWord (wordModulus - 6) 2 = wordModulus - 3 ∧
    smodWord (wordModulus - 7) 3 = wordModulus - 1 := by
  have hna := isNeg_eq a ha
  have hnb := isNeg_eq b hb
  refine ⟨?_, ?_, by decide, by decide⟩
  · by_cases hA : 2 ^ 255 ≤ a <;> by_cases hB : 2 ^ 255 ≤ b
    · -- both operands negative
      have e1 : isNeg a = true := by rw [hna]; exact decide_eq_true hA
      have e2 : isNeg b = true := by rw [hnb]; exact decide_eq_true hB
      have ha0 : a ≠ 0 := by unfold wordModulus at *; omega
      rw [toSigned_high a ha hA, toSigned_high b hb hB, Int.neg_tdiv,
        Int.tdiv_neg, neg_neg, ← Int.ofNat_tdiv]
      simp only [sdivWord, e1, e2, negWord_eq a ha ha0, negWord_eq b hb hbz,
        Bool.xor_true, Bool.xor_false, Bool.not_true, Bool.not_false,
        Bool.true_eq_false, Bool.false_eq_true, ite_true, ite_false]
      have h5 : (wordModulus - a) / (wordModulus - b) ≤ wordModulus - a :=
        Nat.div_le_self _ _
      unfold wordModulus at *
      set q := (2 ^ 256 - a) / (2 ^ 256 - b) with hq
      clear_value q
      clear hq
      omega
    · -- a negative, b positive
      have e1 : isNeg a = true := by rw [hna]; exact decide_eq_true hA
      have e2 : isNeg b = false := by rw [hnb]; exact decide_eq_false hB
      have ha0 : a ≠ 0 := by unfold wordModulus at *; omega
      rw [toSigned_high a ha hA, toSigned_low b hB, Int.neg_tdiv,
        ← Int.ofNat_tdiv]
      simp only [sdivWord, e1, e2, negWord_eq a ha ha0, Bool.xor_true,
        Bool.xor_false, Bool.not_true, Bool.not_false, Bool.true_eq_false,
        Bool.false_eq_true, ite_true, ite_false]
      have h5 : (wordModulus - a) / b ≤ wordModulus - a := Nat.div_le_self _ _
      unfold negWord wordModulus at *
      set q := (2 ^ 256 - a) / b with hq
      clear_value q
      clear hq
      split <;> omega
    · -- a positive, b negative
      have e1 : isNeg a = false := by rw [hna]; exact decide_eq_false hA
      have e2 : isNeg b = true := by rw [hnb]; exact decide_eq_true hB
      rw [toSigned_low a hA, toSigned_high b hb hB, Int.tdiv_neg,
        ← Int.ofNat_tdiv]
      simp only [sdivWord, e1, e2, negWord_eq b hb hbz, Bool.xor_true,
        Bool.xor_false, Bool.not_true, Bool.not_false, Bool.true_eq_false,
        Bool.false_eq_true, ite_true, ite_false]
      have h5 : a / (wordModulus - b) ≤ a := Nat.div_le_self _ _
      unfold negWord wordModulus at *
      set q := a / (2 ^ 256 - b) with hq
      clear_value q
      clear hq
      split <;> omega
    · -- both operands positive
      have e1 : isNeg a = false := by rw [hna]; exact decide_eq_false hA
      have e2 : isNeg b = false := by rw [hnb]; exact decide_eq_false hB
      rw [toSigned_low a hA, toSigned_low b hB, ← Int.ofNat_tdiv]
      simp only [sdivWord, e1, e2, Bool.xor_false, Bool.false_eq_true,
        ite_false]
      have h5 : a / b ≤ a := Nat.div_le_self a b
      unfold wordModulus at *
      set q := a / b with hq
      clear_value q
      clear hq
      omega
  · by_cases hA : 2 ^ 255 ≤ a <;> by_cases hB : 2 ^ 255 ≤ b
    · -- both negative: equal signs, plain remainder of the absolute values
      have e1 : isNeg a = true := by rw [hna]; exact decide_eq_true hA
      have e2 : isNeg b = true := by rw [hnb]; exact decide_eq_true hB
      have ha0 : a ≠ 0 := by unfold wordModulus at *; omega
      have hx : xorSignRem (toSigned a) (toSigned b) =
          (((wordModulus - a) % (wordModulus - b) : Nat) : Int) := by
        unfold xorSignRem
        rw [natAbs_toSigned a ha, natAbs_toSigned b hb, if_pos hA, if_pos hB,
          decide_eq_true ((toSigned_neg_iff a ha).2 hA),
          decide_eq_true ((toSigned_neg_iff b hb).2 hB)]
        simp
      rw [hx]
      simp only [smodWord, e1, e2, negWord_eq a ha ha0, negWord_eq b hb hbz,
        Bool.xor_true, Bool.xor_false, Bool.not_true, Bool.not_false,
        Bool.true_eq_false, Bool.false_eq_true, ite_true, ite_false]
      have h5 : (wordModulus - a) % (wordModulus - b) ≤ wordModulus - a :=
        Nat.mod_le _ _
      unfold wordModulus at *
      set r := (2 ^ 256 - a) % (2 ^ 256 - b) with hr
      clear_value r
      clear hr
      omega
    · -- a negative, b positive: differing signs, negated remainder
      have e1 : isNeg a = true := by rw [hna]; exact decide_eq_true hA
      have e2 : isNeg b = false := by rw [hnb]; exact decide_eq_false hB
      have ha0 : a ≠ 0 := by unfold wordModulus at *; omega
      have hx : xorSignRem (toSigned a) (toSigned b) =
          -((((wordModulus - a) % b : Nat)) : Int) := by
        unfold xorSignRem
        rw [natAbs_toSigned a ha, natAbs_toSigned b hb, if_pos hA, if_neg hB,
          decide_eq_true ((toSigned_neg_iff a ha).2 hA),
          decide_eq_false (fun hh => hB ((toSigned_neg_iff b hb).1 hh))]
        simp
      rw [hx]
      simp only [smodWord, e1, e2, negWord_eq a ha ha0, Bool.xor_true,
        Bool.xor_false, Bool.not_true, Bool.not_false, Bool.true_eq_false,
        Bool.false_eq_true, ite_true, ite_false]
      have h5 : (wordModulus - a) % b ≤ wordModulus - a := Nat.mod_le _ _
      unfold negWord wordModulus at *
      set r := (2 ^ 256 - a) % b with hr
      clear_value r
      clear hr
      split <;> omega
    · -- a positive, b negative: differing signs, negated remainder
      have e1 : isNeg a = false := by rw [hna]; exact decide_eq_false hA
      have e2 : isNeg b = true := by rw [hnb]; exact decide_eq_true hB
      have hx : xorSignRem (toSigned a) (toSigned b) =
          -(((a % (wordModulus - b) : Nat)) : Int) := by
        unfold xorSignRem
        rw [natAbs_toSigned a ha, natAbs_toSigned b hb, if_neg hA, if_pos hB,
          decide_eq_false (fun hh => hA ((toSigned_neg_iff a ha).1 hh)),
          decide_eq_true ((toSigned_neg_iff b hb).2 hB)]
        simp
      rw [hx]
      simp only [smodWord, e1, e2, negWord_eq b hb hbz, Bool.xor_true,
        Bool.xor_false, Bool.not_true, Bool.not_false, Bool.true_eq_false,
        Bool.false_eq_true, ite_true, ite_false]
      have h5 : a % (wordModulus - b) ≤ a := Nat.mod_le _ _
      unfold negWord wordModulus at *
      set r := a % (2 ^ 256 - b) with hr
      clear_value r
      clear hr
      split <;> omega
    · -- both positive
      have e1 : isNeg a = false := by rw [hna]; exact decide_eq_false hA
      have e2 : isNeg b = false := by rw [hnb]; exact decide_eq_false hB
      have hx : xorSignRem (toSigned a) (toSigned b) =
          (((a % b : Nat)) : Int) := by
        unfold xorSignRem
        rw [natAbs_toSigned a ha, natAbs_toSigned b hb, if_neg hA, if_neg hB,
          decide_eq_false (fun hh => hA ((toSigned_neg_iff a ha).1 hh)),
          decide_eq_false (fun hh => hB ((toSigned_neg_iff b hb).1 hh))]
        simp
      rw [hx]
      simp only [smodWord, e1, e2, Bool.xor_false, Bool.false_eq_true,
        ite_false]
      have h5 : a % b ≤ a := Nat.mod_le a b
      unfold wordModulus at *
      set r := a % b with hr
      clear_value r
      clear hr
      omega


/-- C5 counterexample: at index 0 and value 2^248 the code pushes
2^256 - 2^248 (it tests the low bit of the MOST significant byte and ORs ones
above that position), while the claim's replication of the sign bit of byte 0
counted from the least significant end yields 0 — the two disagree. -/
theorem signextend_cex :
    signextendWord 0 (2 ^ 248) = wordModulus - 2 ^ 248 ∧
    signextendClaim 0 (2 ^ 248) = 0 ∧
    signextendWord 0 (2 ^ 248) ≠ signextendClaim 0 (2 ^ 248) := by decide

/-- The land with a single power of two is zero exactly when that bit of the
other operand is clear. -/
lemma and_two_pow_eq_zero (v p : Nat) :
    v &&& 2 ^ p = 0 ↔ v.testBit p = false := by
  rw [Nat.and_two_pow]
  rcases hb : v.testBit p
  · simp
  · simp [(Nat.two_pow_pos p).ne']

/-- The all-ones word shifted left by p, truncated to 256 bits. -/
lemma extend_word_eq (p : Nat) (hp : p ≤ 256) :
    (wordModulus - 1) * 2 ^ p % wordModulus = 2 ^ 256 - 2 ^ p := by
  unfold wordModulus
  have hp2 : (2:Nat) ^ p ≤ 2 ^ 256 := Nat.pow_le_pow_right (by norm_num) hp
  have h1 : (1:Nat) ≤ 2 ^ p := Nat.one_le_two_pow
  have hexp : (2 ^ 256 - 1) * 2 ^ p =
      (2 ^ p - 1) * 2 ^ 256 + (2 ^ 256 - 2 ^ p) := by
    zify [hp2, h1, show (1:Nat) ≤ 2 ^ 256 by norm_num]
    ring
  rw [hexp, Nat.add_comm, Nat.add_mul_mod_self_right,
    Nat.mod_eq_of_lt (by omega)]

/-- Bits of the truncated all-ones-shifted word: set exactly from position p
up to position 255. -/
lemma extend_testBit (p j : Nat) (hp : p ≤ 256) (hj : j < 256) :
    ((wordModulus - 1) * 2 ^ p % wordModulus).testBit j = decide (p ≤ j) := by
  rw [extend_word_eq p hp]
  have h3 : (2:Nat) ^ (256 - p) * 2 ^ p = 2 ^ 256 := by
    rw [← pow_add]
    congr 1
    omega
  have h2 : (2:Nat) ^ 256 - 2 ^ p = (2 ^ (256 - p) - 1) <<< p := by
    rw [Nat.shiftLeft_eq, Nat.sub_mul, one_mul, h3]
  rw [h2, Nat.testBit_shiftLeft, Nat.testBit_two_pow_sub_one]
  by_cases hpj : p ≤ j
  · simp only [ge_iff_le, decide_eq_true hpj, Bool.true_and]
    exact decide_eq_true (by omega)
  · simp [ge_iff_le, hpj]

/-- C5 (amended): writing i for the low-64-bit truncation of the popped index
word, bit j of the SIGNEXTEND result is bit j of v OR — when i < 32 — the
single bit of v at position 8*(31-i) whenever that position is ≤ j: the code
tests the least significant bit of the byte i positions below the most
significant byte and only ever ORs ones in at and above that position (it
never clears high bits); for i ≥ 32 the value passes through unchanged. -/
theorem signextend_bit_semantics (iw v j : Nat) (hv : v < wordModulus)
    (hj : j < 256) :
    ((signextendWord iw v).testBit j =
      (v.testBit j ||
        (decide (iw % 2 ^ 64 < 32) && decide (8 * (31 - iw % 2 ^ 64) ≤ j) &&
          v.testBit (8 * (31 - iw % 2 ^ 64))))) ∧
    (32 ≤ iw % 2 ^ 64 → signextendWord iw v = v) := by
  constructor
  · by_cases hi : iw % 2 ^ 64 < 32
    · simp only [signextendWord, if_pos hi]
      by_cases hbit : v &&& 2 ^ (8 * (31 - iw % 2 ^ 64)) = 0
      · rw [if_pos hbit, Nat.or_zero]
        have hb := (and_two_pow_eq_zero _ _).1 hbit
        rw [hb, Bool.and_false, Bool.or_false]
      · rw [if_neg hbit]
        have hb : v.testBit (8 * (31 - iw % 2 ^ 64)) = true := by
          rcases hx : v.testBit (8 * (31 - iw % 2 ^ 64))
          · exact absurd ((and_two_pow_eq_zero _ _).2 hx) hbit
          · rfl
        rw [Nat.testBit_lor, extend_testBit _ j (by omega) hj]
        rw [hb, decide_eq_true hi, Bool.and_true, Bool.true_and]
    · simp only [signextendWord, if_neg hi]
      rw [decide_eq_false hi, Bool.false_and, Bool.false_and, Bool.or_false]
  · intro h32
    simp only [signextendWord]
    rw [if_neg (by omega)]

/-- Witness for C5 at the counterexample input: index word 0, value 2^248,
bit 255 of the result equals the OR formula (here true, although bit 255 of
the input value is false). -/
theorem signextend_bit_semantics_witness :
    ((signextendWord 0 (2 ^ 248)).testBit 255 =
      ((2 ^ 248 : Nat).testBit 255 ||
        (decide ((0:Nat) % 2 ^ 64 < 32) &&
          decide (8 * (31 - (0:Nat) % 2 ^ 64) ≤ 255) &&
          (2 ^ 248 : Nat).testBit (8 * (31 - (0:Nat) % 2 ^ 64))))) ∧
    (32 ≤ (0:Nat) % 2 ^ 64 → signextendWord 0 (2 ^ 248) = 2 ^ 248) :=
  signextend_bit_semantics 0 (2 ^ 248) 255 (by decide) (by decide)

/-- Witness for C4 at the claim's own example inputs a = -6, b = 2. -/
theorem sdiv_smod_signed_semantics_witness :
    (sdivWord (wordModulus - 6) 2 =
      (((toSigned (wordModulus - 6)).tdiv (toSigned 2)) %
        ((wordModulus : Nat) : Int)).toNat) ∧
    (smodWord (wordModulus - 6) 2 =
      ((xorSignRem (toSigned (wordModulus - 6)) (toSigned 2)) %
        ((wordModulus : Nat) : Int)).toNat) ∧
    sdivWord (wordModulus - 6) 2 = wordModulus - 3 ∧
    smodWord (wordModulus - 7) 3 = wordModulus - 1 :=
  sdiv_smod_signed_semantics (wordModulus - 6) 2 (by decide) (by decide)
    (by decide)


/-- C10 (confirmed): whenever Evm::step returns an error of any kind
(OutOfGas, StackUnderflow or StackOverflow), the program counter is unchanged
— every dispatch arm increments it only after all fallible operations of the
arm have succeeded. -/
theorem step_err_pc_unchanged (gasOf : OpcodeId → Nat)
    (decode : Nat → Option OpcodeId) (e e1 : Evm) (er : EvmError)
    (herr : Evm.step gasOf decode e = .err e1 er) :
    e1.program_counter = e.program_counter := by
  rcases hop : get_opcode decode e.bytecode e.program_counter with _ | oop
  · simp [Evm.step, hop] at herr
  · rcases oop with _ | op
    · simp [Evm.step, hop] at herr
    · cases op <;> simp only [Evm.step, hop] at herr <;>
        (repeat' split at herr) <;>
        first
          | (injection herr with h1 h2; subst h1; rfl)
          | injection herr


/-- C10 witness at a concrete input: ADD with cost 5 against a gas budget of 3
fails with OutOfGas and leaves the program counter at 0. -/
theorem step_err_pc_unchanged_witness :
    (⟨0, ⟨[]⟩, ⟨[⟨1, true⟩]⟩, ⟨3, 0⟩, ⟨[], 0⟩, ⟨[]⟩, ⟨[]⟩⟩ :
      Evm).program_counter =
    (⟨0, ⟨[]⟩, ⟨[⟨1, true⟩]⟩, ⟨3, 0⟩, ⟨[], 0⟩, ⟨[]⟩, ⟨[]⟩⟩ :
      Evm).program_counter :=
  step_err_pc_unchanged (fun _ => 5) (fun _ => some .ADD)
    ⟨0, ⟨[]⟩, ⟨[⟨1, true⟩]⟩, ⟨3, 0⟩, ⟨[], 0⟩, ⟨[]⟩, ⟨[]⟩⟩
    ⟨0, ⟨[]⟩, ⟨[⟨1, true⟩]⟩, ⟨3, 0⟩, ⟨[], 0⟩, ⟨[]⟩, ⟨[]⟩⟩ .OutOfGas (by decide)

/-- A failing try_pop always reports StackUnderflow. -/
lemma try_pop_error {s : Stack} {e : EvmError}
    (h : Stack.try_pop s = .error e) : e = .StackUnderflow := by
  unfold Stack.try_pop at h
  split at h
  · injection h with h1
    exact h1.symm
  · exact absurd h (by simp)

/-- A failing try_push always reports StackOverflow. -/
lemma try_push_error {s : Stack} {v : Nat} {e : EvmError}
    (h : Stack.try_push s v = .error e) : e = .StackOverflow := by
  unfold Stack.try_push at h
  split at h
  · injection h with h1
    exact h1.symm
  · exact absurd h (by simp)

/-- A successful try_pop removes exactly the head (the stack top). -/
lemma try_pop_ok {s s1 : Stack} {v : Nat}
    (h : Stack.try_pop s = .ok (v, s1)) : s.inner = v :: s1.inner := by
  unfold Stack.try_pop at h
  split at h
  · exact absurd h (by simp)
  · rename_i x rest heq
    injection h with h1
    injection h1 with h2 h3
    rw [heq, h2, ← h3]

/-- When mload fails with OutOfGas the offset operand has already been popped
from the stack. -/
lemma mload_oog {gasOf : OpcodeId → Nat} {m m1 : Memory} {g g1 : Gas}
    {st st1 : Stack}
    (h : Memory.mload gasOf m g st = .err (m1, g1, st1) .OutOfGas) :
    ∃ x rest, st.inner = x :: rest ∧ st1.inner = rest := by
  obtain ⟨inner⟩ := st
  rcases inner with _ | ⟨x, rest⟩
  · simp [Memory.mload, Stack.try_pop] at h
  · simp only [Memory.mload, Stack.try_pop] at h
    split at h
    · injection h
    · injection h with h1 h2
      injection h1 with ha hb
      injection hb with hc hd
      exact ⟨x, rest, rfl, by rw [← hd]⟩
    · repeat' split at h
      all_goals injection h


/-- When sload fails with OutOfGas the key operand has already been popped
from the stack. -/
lemma sload_oog {gasOf : OpcodeId → Nat} {sto sto1 : Storage}
    {al al1 : AccessList} {g g1 : Gas} {st st1 : Stack}
    (h : Storage.sload gasOf sto al g st =
      .err (sto1, al1, g1, st1) .OutOfGas) :
    ∃ x rest, st.inner = x :: rest ∧ st1.inner = rest := by
  obtain ⟨inner⟩ := st
  rcases inner with _ | ⟨x, rest⟩
  · simp [Storage.sload, Stack.try_pop] at h
  · simp only [Storage.sload, Stack.try_pop] at h
    split at h
    · injection h with h1 h2
      injection h1 with ha hb
      injection hb with hc hd
      injection hd with he hf
      exact ⟨x, rest, rfl, by rw [← hf]⟩
    · repeat' split at h
      all_goals injection h

/-- When mstore fails with OutOfGas both operands have already been popped
from the stack. -/
lemma mstore_oog {gasOf : OpcodeId → Nat} {m m1 : Memory} {g g1 : Gas}
    {st st1 : Stack}
    (h : Memory.mstore gasOf m g st = .err (m1, g1, st1) .OutOfGas) :
    ∃ x y rest, st.inner = x :: y :: rest ∧ st1.inner = rest := by
  obtain ⟨inner⟩ := st
  rcases inner with _ | ⟨x, l2⟩
  · simp [Memory.mstore, Stack.try_pop] at h
  · rcases l2 with _ | ⟨y, rest⟩
    · simp [Memory.mstore, Stack.try_pop] at h
    · simp only [Memory.mstore, Stack.try_pop] at h
      split at h
      · injection h
      · injection h with h1 h2
        injection h1 with ha hb
        injection hb with hc hd
        exact ⟨x, y, rest, rfl, by rw [← hd]⟩
      · repeat' split at h
        all_goals injection h

/-- When mstore8 fails with OutOfGas both operands have already been popped
from the stack. -/
lemma mstore8_oog {gasOf : OpcodeId → Nat} {m m1 : Memory} {g g1 : Gas}
    {st st1 : Stack}
    (h : Memory.mstore8 gasOf m g st = .err (m1, g1, st1) .OutOfGas) :
    ∃ x y rest, st.inner = x :: y :: rest ∧ st1.inner = rest := by
  obtain ⟨inner⟩ := st
  rcases inner with _ | ⟨x, l2⟩
  · simp [Memory.mstore8, Stack.try_pop] at h
  · rcases l2 with _ | ⟨y, rest⟩
    · simp [Memory.mstore8, Stack.try_pop] at h
    · simp only [Memory.mstore8, Stack.try_pop] at h
      split at h
      · injection h
      · injection h with h1 h2
        injection h1 with ha hb
        injection hb with hc hd
        exact ⟨x, y, rest, rfl, by rw [← hd]⟩
      · repeat' split at h
        all_goals injection h

/-- When sstore fails with OutOfGas both operands have already been popped
from the stack. -/
lemma sstore_oog {gasOf : OpcodeId → Nat} {sto sto1 : Storage}
    {al al1 : AccessList} {g g1 : Gas} {st st1 : Stack}
    (h : Storage.sstore gasOf sto al g st =
      .err (sto1, al1, g1, st1) .OutOfGas) :
    ∃ x y rest, st.inner = x :: y :: rest ∧ st1.inner = rest := by
  obtain ⟨inner⟩ := st
  rcases inner with _ | ⟨x, l2⟩
  · simp [Storage.sstore, Stack.try_pop] at h
  · rcases l2 with _ | ⟨y, rest⟩
    · simp [Storage.sstore, Stack.try_pop] at h
    · simp only [Storage.sstore, Stack.try_pop] at h
      split at h
      · injection h with h1 h2
        injection h1 with ha hb
        injection hb with hc hd
        injection hd with he hf
        exact ⟨x, y, rest, rfl, by rw [← hf]⟩
      · repeat' split at h
        all_goals injection h


/-- C3 (confirmed): when a step fails with OutOfGas, the arithmetic, bitwise
and comparison opcodes — which charge gas before popping — leave the stack
untouched, while the memory opcodes (MLOAD/MSTORE/MSTORE8) and storage
opcodes (SLOAD/SSTORE) — which pop their operand(s) before attempting the
charge — have already removed those operands from the stack. -/
theorem step_pop_charge_order (gasOf : OpcodeId → Nat)
    (decode : Nat → Option OpcodeId) (e e1 : Evm) (op : OpcodeId)
    (hop : get_opcode decode e.bytecode e.program_counter = some (some op))
    (herr : Evm.step gasOf decode e = .err e1 .OutOfGas) :
    (op ∈ [OpcodeId.ADD, .MUL, .SUB, .DIV, .MOD, .SDIV, .SMOD, .ADDMOD,
        .MULMOD, .SIGNEXTEND, .LT, .GT, .SLT, .SGT, .EQ, .AND, .OR, .XOR,
        .NOT, .BYTE] → e1.stack = e.stack) ∧
    ((op = .MLOAD ∨ op = .SLOAD) →
      ∃ x rest, e.stack.inner = x :: rest ∧ e1.stack.inner = rest) ∧
    ((op = .MSTORE ∨ op = .MSTORE8 ∨ op = .SSTORE) →
      ∃ x y rest, e.stack.inner = x :: y :: rest ∧ e1.stack.inner = rest) := by
  refine ⟨?_, ?_, ?_⟩
  · intro hmem
    fin_cases hmem <;>
      simp only [Evm.step, hop] at herr <;>
      (repeat' split at herr) <;>
      first
        | (injection herr with h1 h2; subst h1; rfl)
        | (injection herr with h1 h2; subst h2;
            exact absurd (try_pop_error (by assumption)) (by simp))
        | (injection herr with h1 h2; subst h2;
            exact absurd (try_push_error (by assumption)) (by simp))
        | injection herr
  · rintro (h | h) <;> subst h
    · rcases hml : Memory.mload gasOf e.memory e.gas e.stack with
        ⟨⟨m2, g2, st2⟩, v⟩ | ⟨⟨m2, g2, st2⟩, er2⟩ | ⟨⟩ <;>
        simp only [Evm.step, hop, hml] at herr
      · injection herr
      · injection herr with h1 h2
        subst h2
        obtain ⟨x, rest, hs, hs1⟩ := mload_oog hml
        exact ⟨x, rest, hs, by rw [← h1]; exact hs1⟩
      · injection herr
    · rcases hsl : Storage.sload gasOf e.storage e.access_list e.gas e.stack
        with ⟨⟨sto2, al2, g2, st2⟩, v⟩ | ⟨⟨sto2, al2, g2, st2⟩, er2⟩ | ⟨⟩ <;>
        simp only [Evm.step, hop, hsl] at herr
      · injection herr
      · injection herr with h1 h2
        subst h2
        obtain ⟨x, rest, hs, hs1⟩ := sload_oog hsl
        exact ⟨x, rest, hs, by rw [← h1]; exact hs1⟩
      · injection herr
  · rintro (h | h | h) <;> subst h
    · rcases hms : Memory.mstore gasOf e.memory e.gas e.stack with
        ⟨⟨m2, g2, st2⟩, v⟩ | ⟨⟨m2, g2, st2⟩, er2⟩ | ⟨⟩ <;>
        simp only [Evm.step, hop, hms] at herr
      · injection herr
      · injection herr with h1 h2
        subst h2
        obtain ⟨x, y, rest, hs, hs1⟩ := mstore_oog hms
        exact ⟨x, y, rest, hs, by rw [← h1]; exact hs1⟩
      · injection herr
    · rcases hms : Memory.mstore8 gasOf e.memory e.gas e.stack with
        ⟨⟨m2, g2, st2⟩, v⟩ | ⟨⟨m2, g2, st2⟩, er2⟩ | ⟨⟩ <;>
        simp only [Evm.step, hop, hms] at herr
      · injection herr
      · injection herr with h1 h2
        subst h2
        obtain ⟨x, y, rest, hs, hs1⟩ := mstore8_oog hms
        exact ⟨x, y, rest, hs, by rw [← h1]; exact hs1⟩
      · injection herr
    · rcases hss : Storage.sstore gasOf e.storage e.access_list e.gas e.stack
        with ⟨⟨sto2, al2, g2, st2⟩, v⟩ | ⟨⟨sto2, al2, g2, st2⟩, er2⟩ | ⟨⟩ <;>
        simp only [Evm.step, hop, hss] at herr
      · injection herr
      · injection herr with h1 h2
        subst h2
        obtain ⟨x, y, rest, hs, hs1⟩ := sstore_oog hss
        exact ⟨x, y, rest, hs, by rw [← h1]; exact hs1⟩
      · injection herr


/-- C3 witness at a concrete input: an ADD that fails with OutOfGas (cost 5
against a budget of 3) leaves the two-operand stack untouched. -/
theorem step_pop_charge_order_witness :
    (⟨0, ⟨[]⟩, ⟨[⟨1, true⟩]⟩, ⟨3, 0⟩, ⟨[], 0⟩, ⟨[8, 9]⟩, ⟨[]⟩⟩ :
      Evm).stack =
    (⟨0, ⟨[]⟩, ⟨[⟨1, true⟩]⟩, ⟨3, 0⟩, ⟨[], 0⟩, ⟨[8, 9]⟩, ⟨[]⟩⟩ :
      Evm).stack :=
  (step_pop_charge_order (fun _ => 5) (fun _ => some .ADD)
    ⟨0, ⟨[]⟩, ⟨[⟨1, true⟩]⟩, ⟨3, 0⟩, ⟨[], 0⟩, ⟨[8, 9]⟩, ⟨[]⟩⟩
    ⟨0, ⟨[]⟩, ⟨[⟨1, true⟩]⟩, ⟨3, 0⟩, ⟨[], 0⟩, ⟨[8, 9]⟩, ⟨[]⟩⟩ .ADD
    (by decide) (by decide)).1 (by decide)

end EvmTetris
